import Mathlib

/-!
Verification of the learning-not-to-learn trainer (`src/main.py`) against its
specification.  The Python program is shallowly embedded: the bucket-boundary
construction and the TF `Bucketize` quantizer become executable functions on
`Nat`/`Rat`, the training loop becomes a trace of events, the per-step state
updates become explicit state-passing functions, and the checkpoint-restore
`try/except` becomes a total function on an outcome type.
-/

namespace LearningNotToLearn

/-! ## Bucket boundaries (`_preprocess_dataset`, main.py line 71)

Python: `boundaries = list(range(0, 256, 256//self.args.dim_bias))[1:]`. -/

/-- Python `range(start, stop, step)` for a positive step: the list
`start, start+step, ...` of length `ceil((stop-start)/step)`. -/
def pyRangeStep (start stop step : ℕ) : List ℕ :=
  (List.range ((stop - start + step - 1) / step)).map (fun i => start + i * step)

/-- The boundary list `list(range(0, 256, 256//dim_bias))[1:]` of main.py line 71
(meaningful when the step `256 / d` is nonzero). -/
def boundariesOf (d : ℕ) : List ℕ :=
  (pyRangeStep 0 256 (256 / d)).drop 1

/-- `True`-as-`Bool` success test for an `Except`. -/
def okB {ε α : Type} : Except ε α → Bool
  | .ok _ => true
  | .error _ => false

/-- Boundary construction including the Python failure mode: `range` with a zero
step raises `ValueError` (and the `Trainer` constructor aborts before any
training step).  `256 // d = 0` exactly captures `d > 256`. -/
def mkBoundaries (d : ℕ) : Except String (List ℕ) :=
  if 256 / d = 0 then .error "range() arg 3 must not be zero"
  else .ok (boundariesOf d)

/-! ## Quantizer (`_quantize` / `_preprocess`, main.py lines 72, 81-88)

`tf.raw_ops.Bucketize(input=x, boundaries=bs)` maps `x` to the number of
boundaries that are `≤ x` (documented semantics: a value equal to a boundary
falls in the upper bucket).  Channel values after the bilinear resize are
reals in `[0, 255]`; we embed them as rationals. -/

/-- TF `Bucketize`: the bucket index of `x` is the number of boundaries `≤ x`. -/
def bucketize (bs : List ℕ) (x : ℚ) : ℕ :=
  (bs.filter (fun (b : ℕ) => decide ((b : ℚ) ≤ x))).length

/-- The per-channel quantizer `self._quantize` built in `_preprocess_dataset`. -/
def quantize (d : ℕ) (x : ℚ) : ℕ :=
  bucketize (boundariesOf d) x

/-! ## Gradient reversal (`model.GradientReversalLayer`, used at main.py line 126)

The layer itself lives in `model.py`, which is not part of the sources; it is
modelled from the spec.  Reverse-mode autodiff is embedded as a map together
with its vector-Jacobian product (pullback): composing maps composes forwards
and chains pullbacks, exactly TF's `tf.custom_gradient` discipline. -/

/-- A differentiable map embedded with its reverse-mode pullback:
`pullback x dz` is the cotangent at the input when `dz` is the cotangent at
the output, evaluated at the primal point `x`. -/
structure DiffMap (α β : Type) where
  forward : α → β
  pullback : α → β → α

/-- Composition of differentiable maps: forwards compose, pullbacks chain in
reverse (the chain rule of reverse-mode autodiff). -/
def DiffMap.comp {α β γ : Type} (g : DiffMap β γ) (f : DiffMap α β) : DiffMap α γ where
  forward := fun x => g.forward (f.forward x)
  pullback := fun x dz => f.pullback x (g.pullback (f.forward x) dz)

/-- Modelled from the spec: `model.GradientReversalLayer` (not under `src/`):
stateless, parameterless; forward pass is the identity, backward pass negates
the incoming gradient (scale factor λ_rev at its default magnitude 1). -/
def gradientReversalLayer {V : Type} [Neg V] : DiffMap V V where
  forward := fun x => x
  pullback := fun _ dz => -dz

/-- Gradient of a scalar-valued map at `x`: pull the seed cotangent 1 back. -/
def gradAt {α K : Type} [One K] (L : DiffMap α K) (x : α) : α :=
  L.pullback x 1

/-- A sample differentiable map (doubling), used to exercise the reversal
theorem at a concrete input. -/
def doubleMap : DiffMap ℚ ℚ where
  forward := fun x => x + x
  pullback := fun _ dz => dz + dz

/-- A sample scalar loss (squaring), used to exercise the reversal theorem at
a concrete input. -/
def squareLoss : DiffMap ℚ ℚ where
  forward := fun y => y * y
  pullback := fun y dz => (y + y) * dz

/-! ## Losses of pass 1 (`_train_step`, main.py lines 107-114)

`tf.keras.losses.CategoricalCrossentropy` on probability vectors is
`-Σ tᵢ · log pᵢ`; the code calls it with the prediction in both slots
(`self.crossentropy(pseudo_pred_r, pseudo_pred_r)`).  Embedded over the reals
(the float clipping by `epsilon` is abstracted away, as the spec's "within
numerical tolerance" allows). -/

/-- Categorical crossentropy `-Σ tᵢ · log pᵢ` of target `t` and prediction `p`. -/
noncomputable def crossentropy (t p : List ℝ) : ℝ :=
  -((List.zipWith (fun a b => a * Real.log b) t p).sum)

/-- Shannon entropy `-Σ pᵢ · log pᵢ`. -/
noncomputable def entropy (p : List ℝ) : ℝ :=
  -((p.map (fun a => a * Real.log a)).sum)

/-- A well-formed probability vector: nonnegative entries summing to 1. -/
def IsProbVec (p : List ℝ) : Prop :=
  (∀ a ∈ p, 0 ≤ a) ∧ p.sum = 1

/-- The per-step self-distillation loss `loss_pred_ps_color` of main.py
line 112: the mean over the three channels of the crossentropy of each
pseudo prediction against itself. -/
noncomputable def selfDistillLoss (pr pg pb : List ℝ) : ℝ :=
  (crossentropy pr pr + crossentropy pg pg + crossentropy pb pb) / 3

/-! ## Trainer state and the two-pass training step
(`_train_step` / `_train_step_baseline`, main.py lines 98-160)

The numeric content of `tape.gradient` + `optimizer.apply_gradients` is kept
abstract (it is TF autodiff), but which variables each pass reads and writes
is taken literally from the code: pass 1 differentiates w.r.t.
`self.net.trainable_variables` only and applies the update to exactly those,
pass 2 updates net and the three predictors. -/

/-- The trainer's mutable state: the four parameter sets, the metric
accumulators, and the two counters (main.py lines 38-67). -/
structure TrainerState (P Q M : Type) where
  net : P
  predR : Q
  predG : Q
  predB : Q
  metrics : M
  globalStep : ℕ
  globalEpoch : ℕ

/-- The gradient/optimizer computations of one step, abstracted: each field
consumes exactly the values the corresponding code reads and returns exactly
the variables the corresponding code writes. -/
structure StepOps (P Q M B : Type) where
  pass1Net : P → Q → Q → Q → B → P
  pass1Metrics : M → P → Q → Q → Q → B → M
  pass2All : P → Q → Q → Q → B → P × Q × Q × Q
  pass2Metrics : M → P → Q → Q → Q → B → M
  baselineNet : P → B → P
  baselineMetrics : M → P → B → M

/-- Pass 1 (main.py lines 100-121): the loss depends on the predictors'
outputs, but `tape.gradient(loss, self.net.trainable_variables)` followed by
`self.optimizer.apply_gradients` writes only the net parameters (plus the
running metrics). -/
def trainStepPass1 {P Q M B : Type} (ops : StepOps P Q M B) (b : B)
    (s : TrainerState P Q M) : TrainerState P Q M :=
  { s with
    net := ops.pass1Net s.net s.predR s.predG s.predB b
    metrics := ops.pass1Metrics s.metrics s.net s.predR s.predG s.predB b }

/-- Pass 2 (main.py lines 123-147): the adversarial update writes the net and
all three predictor parameter sets, plus the color-loss metric. -/
def trainStepPass2 {P Q M B : Type} (ops : StepOps P Q M B) (b : B)
    (s : TrainerState P Q M) : TrainerState P Q M :=
  let t := ops.pass2All s.net s.predR s.predG s.predB b
  { s with net := t.1, predR := t.2.1, predG := t.2.2.1, predB := t.2.2.2
           metrics := ops.pass2Metrics s.metrics s.net s.predR s.predG s.predB b }

/-- One adversarial training step `_train_step`: pass 1, then pass 2, then
`self.global_step.assign_add(1)` exactly once (main.py line 148). -/
def trainStep {P Q M B : Type} (ops : StepOps P Q M B) (b : B)
    (s : TrainerState P Q M) : TrainerState P Q M :=
  let s2 := trainStepPass2 ops b (trainStepPass1 ops b s)
  { s2 with globalStep := s2.globalStep + 1 }

/-- One baseline training step `_train_step_baseline` (main.py lines 150-160):
a single classification pass, then `assign_add(1)` exactly once. -/
def trainStepBaseline {P Q M B : Type} (ops : StepOps P Q M B) (b : B)
    (s : TrainerState P Q M) : TrainerState P Q M :=
  { s with
    net := ops.baselineNet s.net b
    metrics := ops.baselineMetrics s.metrics s.net b
    globalStep := s.globalStep + 1 }

/-- Run a step function over a list of batches, left to right. -/
def runSteps {B S : Type} (step : B → S → S) (bs : List B) (s : S) : S :=
  bs.foldl (fun st b => step b st) s

/-- Trivial step operations over unit types, used to exercise the counter
theorem at a concrete input. -/
def trivOps : StepOps Unit Unit Unit Unit where
  pass1Net := fun _ _ _ _ _ => ()
  pass1Metrics := fun _ _ _ _ _ _ => ()
  pass2All := fun _ _ _ _ _ => ((), (), (), ())
  pass2Metrics := fun _ _ _ _ _ _ => ()
  baselineNet := fun _ _ => ()
  baselineMetrics := fun _ _ _ => ()

/-- A freshly constructed trivial trainer state (both counters zero). -/
def trivFresh : TrainerState Unit Unit Unit :=
  { net := (), predR := (), predG := (), predB := (), metrics := ()
    globalStep := 0, globalEpoch := 0 }

/-! ## The epoch loop as an event trace (`train`, main.py lines 207-237)

Each observable action of the loop body becomes one event; the loop over
`range(self.global_epoch.value(), self.args.max_epoch)` becomes structural
recursion on the number of remaining epochs. -/

/-- Observable events of the training loop. -/
inductive TrainEvent where
  | stepRun
  | trainSummary
  | epochInc
  | testRun
  | valSummary
deriving DecidableEq, Repr

/-- The inner batch loop (main.py lines 218-220): for each batch, one training
step immediately followed by one `_write_summary_train` call. -/
def batchesTrace : ℕ → List TrainEvent
  | 0 => []
  | n + 1 => TrainEvent.stepRun :: TrainEvent.trainSummary :: batchesTrace n

/-- The validation loop over the held-out set (main.py lines 229-230). -/
def testBatchesTrace : ℕ → List TrainEvent
  | 0 => []
  | n + 1 => TrainEvent.testRun :: testBatchesTrace n

/-- One iteration of the epoch loop (main.py lines 218-231): all batches, then
`global_epoch.assign_add(1)`, then — only when `epoch % 5 == 0` — a full
validation pass followed by one `_write_summary_val` call. -/
def epochTrace (e nb ntb : ℕ) : List TrainEvent :=
  batchesTrace nb ++ [TrainEvent.epochInc] ++
    (if e % 5 = 0 then testBatchesTrace ntb ++ [TrainEvent.valSummary] else [])

/-- The epoch loop, driven by the number of remaining epochs, starting at
epoch index `e`. -/
def trainLoopTrace : ℕ → ℕ → ℕ → ℕ → List TrainEvent
  | 0, _, _, _ => []
  | n + 1, e, nb, ntb => epochTrace e nb ntb ++ trainLoopTrace n (e + 1) nb ntb

/-- The whole `train()` run from a fresh start (`global_epoch = 0`) with
`maxEpoch` epochs, `nb` training batches and `ntb` test batches per pass. -/
def trainTrace (maxEpoch nb ntb : ℕ) : List TrainEvent :=
  trainLoopTrace maxEpoch 0 nb ntb

/-! ## Checkpoint restore (`_restore_checkpoint`, main.py lines 90-92)

`try: self.checkpoint.restore(...).expect_partial()
 except: print("Could not restore from checkpoint.")` -/

/-- The ways `tf.train.latest_checkpoint` + `Checkpoint.restore` can end:
either a restored parameter snapshot, or one of the failure modes the spec
enumerates. -/
inductive RestoreFailure where
  | noCheckpoint
  | incompatibleShapes
  | corruptFile
deriving DecidableEq, Repr

/-- Outcome of the restore attempt inside the `try` block. -/
inductive RestoreOutcome (P : Type) where
  | found (p : P)
  | failed (k : RestoreFailure)

/-- The body of the `try` block: a failure raises (returns `Except.error`). -/
def restoreBody {P : Type} : RestoreOutcome P → Except RestoreFailure P
  | .found p => .ok p
  | .failed k => .error k

/-- `_restore_checkpoint`: run the body; a raised exception is caught by the
bare `except:`, the warning is printed, and the parameters keep their current
(freshly initialized) values.  Returns the resulting parameters and the list
of emitted warnings. -/
def restoreCheckpoint {P : Type} (cur : P) (o : RestoreOutcome P) : P × List String :=
  match restoreBody o with
  | .ok p => (p, [])
  | .error _ => (cur, ["Could not restore from checkpoint."])

/-! ### Helper lemmas on the boundary list -/

/-- For a divisor `d` of 256 the boundary list is exactly
`[s, 2s, ..., (d-1)s]` with `s = 256/d`. -/
lemma boundaries_dvd_char (d : ℕ) (hd : d ∣ 256) :
    boundariesOf d = (List.range (d - 1)).map (fun i => (i + 1) * (256 / d)) := by
  have hdpos : 0 < d := Nat.pos_of_dvd_of_pos hd (by norm_num)
  have hdle : d ≤ 256 := Nat.le_of_dvd (by norm_num) hd
  have hspos : 0 < 256 / d := Nat.div_pos hdle hdpos
  have hsd : 256 / d * d = 256 := Nat.div_mul_cancel hd
  unfold boundariesOf pyRangeStep
  have hn : (256 - 0 + 256 / d - 1) / (256 / d) = d := by
    have h1 : 256 - 0 + 256 / d - 1 = (256 / d - 1) + 256 / d * d := by omega
    rw [h1, Nat.add_mul_div_left _ _ hspos, Nat.div_eq_of_lt (by omega)]
    omega
  rw [hn]
  rw [show List.range d = 0 :: (List.range (d - 1)).map Nat.succ from by
    rw [← List.range_succ_eq_map]
    congr 1
    omega]
  simp [List.map_map, Function.comp, Nat.succ_eq_add_one]

lemma boundaries_dvd_length (d : ℕ) (hd : d ∣ 256) :
    (boundariesOf d).length = d - 1 := by
  rw [boundaries_dvd_char d hd, List.length_map, List.length_range]

lemma boundaries_dvd_chain (d : ℕ) (hd : d ∣ 256) :
    List.Chain' (· < ·) (boundariesOf d) := by
  have hdpos : 0 < d := Nat.pos_of_dvd_of_pos hd (by norm_num)
  have hdle : d ≤ 256 := Nat.le_of_dvd (by norm_num) hd
  have hspos : 0 < 256 / d := Nat.div_pos hdle hdpos
  rw [boundaries_dvd_char d hd]
  have hr : List.Chain' (· < ·) (List.range (d - 1)) :=
    (List.pairwise_lt_range (d - 1)).chain'
  exact List.chain'_map_of_chain' (fun i => (i + 1) * (256 / d))
    (fun a b hab => (Nat.mul_lt_mul_right hspos).mpr (by omega)) hr

lemma filter_range_le_length (n i : ℕ) :
    ((List.range n).filter (fun j => decide (j ≤ i))).length = min (i + 1) n := by
  induction n with
  | zero => simp
  | succ n ih =>
    rw [List.range_succ, List.filter_append, List.length_append, ih]
    by_cases h : n ≤ i <;> simp [h] <;> omega

lemma quantize_lt (d : ℕ) (x : ℚ) (hd : d ∣ 256) : quantize d x < d := by
  have hdpos : 0 < d := Nat.pos_of_dvd_of_pos hd (by norm_num)
  have hlen := boundaries_dvd_length d hd
  have hle : quantize d x ≤ (boundariesOf d).length :=
    List.length_filter_le _ _
  omega

/-- A channel value equal to the `i`-th boundary lands in bucket `i+1`,
the bucket whose lower edge is that boundary. -/
lemma quantize_boundary (d : ℕ) (hd : d ∣ 256) (i : ℕ)
    (hi : i < (boundariesOf d).length) :
    quantize d (((boundariesOf d).get ⟨i, hi⟩ : ℕ) : ℚ) = i + 1 := by
  have hdpos : 0 < d := Nat.pos_of_dvd_of_pos hd (by norm_num)
  have hdle : d ≤ 256 := Nat.le_of_dvd (by norm_num) hd
  have hspos : 0 < 256 / d := Nat.div_pos hdle hdpos
  have hchar := boundaries_dvd_char d hd
  have hlen := boundaries_dvd_length d hd
  have hget : (boundariesOf d).get ⟨i, hi⟩ = (i + 1) * (256 / d) := by
    have hi' : i < d - 1 := by omega
    simp [hchar, List.get_eq_getElem]
  unfold quantize bucketize
  rw [hget, hchar, List.filter_map, List.length_map]
  have hpred : ∀ j ∈ List.range (d - 1),
      ((fun (b : ℕ) => decide ((b : ℚ) ≤ ((((i + 1) * (256 / d) : ℕ)) : ℚ))) ∘
        (fun (k : ℕ) => (k + 1) * (256 / d))) j = decide (j ≤ i) := by
    intro j hj
    simp only [Function.comp_apply]
    rw [decide_eq_decide, Nat.cast_le]
    constructor
    · intro h
      have := Nat.le_of_mul_le_mul_right h hspos
      omega
    · intro h
      exact Nat.mul_le_mul (by omega) (le_refl _)
  rw [List.filter_congr hpred, filter_range_le_length]
  have hi' : i < d - 1 := by omega
  omega

/-! ### Helper lemmas on the losses -/

lemma zipWith_same {α β : Type} (f : α → α → β) :
    ∀ l : List α, List.zipWith f l l = l.map (fun a => f a a) := by
  intro l
  induction l with
  | nil => rfl
  | cons a l ih => simp [List.zipWith, ih]

lemma crossentropy_self (p : List ℝ) : crossentropy p p = entropy p := by
  unfold crossentropy entropy
  rw [zipWith_same]

lemma sum_nonpos_of_forall_nonpos :
    ∀ l : List ℝ, (∀ a ∈ l, a ≤ 0) → l.sum ≤ 0 := by
  intro l
  induction l with
  | nil => simp
  | cons a l ih =>
    intro h
    rw [List.sum_cons]
    have ha := h a (by simp)
    have hl := ih (fun b hb => h b (by simp [hb]))
    linarith

lemma entropy_nonneg_of_probVec (p : List ℝ) (hp : IsProbVec p) :
    0 ≤ entropy p := by
  obtain ⟨hnn, hsum⟩ := hp
  unfold entropy
  have h : (p.map (fun a => a * Real.log a)).sum ≤ 0 := by
    apply sum_nonpos_of_forall_nonpos
    intro b hb
    obtain ⟨a, ha, rfl⟩ := List.mem_map.mp hb
    have h0 : 0 ≤ a := hnn a ha
    have h1 : a ≤ 1 := by
      have := List.single_le_sum hnn a ha
      rw [hsum] at this
      exact this
    have hlog : Real.log a ≤ 0 := Real.log_nonpos h0 h1
    exact mul_nonpos_of_nonneg_of_nonpos h0 hlog
  linarith

/-! ### Helper lemmas on the step functions and the epoch-loop trace -/

lemma trainStep_globalStep {P Q M B : Type} (ops : StepOps P Q M B) (b : B)
    (s : TrainerState P Q M) :
    (trainStep ops b s).globalStep = s.globalStep + 1 := rfl

lemma trainStepBaseline_globalStep {P Q M B : Type} (ops : StepOps P Q M B) (b : B)
    (s : TrainerState P Q M) :
    (trainStepBaseline ops b s).globalStep = s.globalStep + 1 := rfl

lemma runSteps_count {B S : Type} (step : B → S → S) (gs : S → ℕ)
    (hstep : ∀ b s, gs (step b s) = gs s + 1) :
    ∀ (bs : List B) (s : S), gs (runSteps step bs s) = gs s + bs.length := by
  intro bs
  induction bs with
  | nil => intro s; simp [runSteps]
  | cons b bs ih =>
    intro s
    have h1 : runSteps step (b :: bs) s = runSteps step bs (step b s) := rfl
    rw [h1, ih, hstep, List.length_cons]
    omega

lemma batchesTrace_count_trainSummary (nb : ℕ) :
    (batchesTrace nb).count TrainEvent.trainSummary = nb := by
  induction nb with
  | zero => rfl
  | succ n ih => simp [batchesTrace, List.count_cons, ih]

lemma batchesTrace_count_stepRun (nb : ℕ) :
    (batchesTrace nb).count TrainEvent.stepRun = nb := by
  induction nb with
  | zero => rfl
  | succ n ih => simp [batchesTrace, List.count_cons, ih]

lemma batchesTrace_count_epochInc (nb : ℕ) :
    (batchesTrace nb).count TrainEvent.epochInc = 0 := by
  induction nb with
  | zero => rfl
  | succ n ih => simp [batchesTrace, List.count_cons, ih]

lemma batchesTrace_count_valSummary (nb : ℕ) :
    (batchesTrace nb).count TrainEvent.valSummary = 0 := by
  induction nb with
  | zero => rfl
  | succ n ih => simp [batchesTrace, List.count_cons, ih]

lemma testBatchesTrace_count_testRun (ntb : ℕ) :
    (testBatchesTrace ntb).count TrainEvent.testRun = ntb := by
  induction ntb with
  | zero => rfl
  | succ n ih => simp [testBatchesTrace, List.count_cons, ih]

lemma testBatchesTrace_count_other (ntb : ℕ) (ev : TrainEvent)
    (hev : ev ≠ TrainEvent.testRun) :
    (testBatchesTrace ntb).count ev = 0 := by
  induction ntb with
  | zero => rfl
  | succ n ih => simp [testBatchesTrace, List.count_cons, ih, hev]

lemma epochTrace_count_trainSummary (e nb ntb : ℕ) :
    (epochTrace e nb ntb).count TrainEvent.trainSummary = nb := by
  unfold epochTrace
  by_cases h : e % 5 = 0 <;>
    simp [h, List.count_append, batchesTrace_count_trainSummary,
      testBatchesTrace_count_other, List.count_cons]

lemma epochTrace_count_stepRun (e nb ntb : ℕ) :
    (epochTrace e nb ntb).count TrainEvent.stepRun = nb := by
  unfold epochTrace
  by_cases h : e % 5 = 0 <;>
    simp [h, List.count_append, batchesTrace_count_stepRun,
      testBatchesTrace_count_other, List.count_cons]

lemma epochTrace_count_epochInc (e nb ntb : ℕ) :
    (epochTrace e nb ntb).count TrainEvent.epochInc = 1 := by
  unfold epochTrace
  by_cases h : e % 5 = 0 <;>
    simp [h, List.count_append, batchesTrace_count_epochInc,
      testBatchesTrace_count_other, List.count_cons]

lemma epochTrace_count_valSummary (e nb ntb : ℕ) :
    (epochTrace e nb ntb).count TrainEvent.valSummary =
      if e % 5 = 0 then 1 else 0 := by
  unfold epochTrace
  by_cases h : e % 5 = 0 <;>
    simp [h, List.count_append, batchesTrace_count_valSummary,
      testBatchesTrace_count_other, List.count_cons]

lemma batchesTrace_count_testRun (nb : ℕ) :
    (batchesTrace nb).count TrainEvent.testRun = 0 := by
  induction nb with
  | zero => rfl
  | succ n ih => simp [batchesTrace, List.count_cons, ih]

lemma epochTrace_count_testRun (e nb ntb : ℕ) :
    (epochTrace e nb ntb).count TrainEvent.testRun =
      if e % 5 = 0 then ntb else 0 := by
  unfold epochTrace
  by_cases h : e % 5 = 0 <;>
    simp [h, List.count_append, batchesTrace_count_testRun,
      testBatchesTrace_count_testRun, List.count_cons]

lemma trainLoopTrace_eq_flatten (nb ntb : ℕ) :
    ∀ (n e : ℕ), trainLoopTrace n e nb ntb =
      ((List.range' e n).map (fun i => epochTrace i nb ntb)).flatten := by
  intro n
  induction n with
  | zero => intro e; rfl
  | succ n ih =>
    intro e
    rw [show List.range' e (n + 1) = e :: List.range' (e + 1) n from
      List.range'_succ e n 1]
    simp only [List.map_cons, List.flatten_cons]
    rw [← ih (e + 1)]
    rfl

lemma trainLoopTrace_succ (n e nb ntb : ℕ) :
    trainLoopTrace (n + 1) e nb ntb =
      epochTrace e nb ntb ++ trainLoopTrace n (e + 1) nb ntb := rfl

lemma trainLoopTrace_count_trainSummary (nb ntb : ℕ) :
    ∀ (n e : ℕ), (trainLoopTrace n e nb ntb).count TrainEvent.trainSummary = n * nb := by
  intro n
  induction n with
  | zero => intro e; simp [trainLoopTrace]
  | succ n ih =>
    intro e
    rw [trainLoopTrace_succ, List.count_append, epochTrace_count_trainSummary, ih]
    ring

lemma trainLoopTrace_count_stepRun (nb ntb : ℕ) :
    ∀ (n e : ℕ), (trainLoopTrace n e nb ntb).count TrainEvent.stepRun = n * nb := by
  intro n
  induction n with
  | zero => intro e; simp [trainLoopTrace]
  | succ n ih =>
    intro e
    rw [trainLoopTrace_succ, List.count_append, epochTrace_count_stepRun, ih]
    ring

lemma trainLoopTrace_count_epochInc (nb ntb : ℕ) :
    ∀ (n e : ℕ), (trainLoopTrace n e nb ntb).count TrainEvent.epochInc = n := by
  intro n
  induction n with
  | zero => intro e; rfl
  | succ n ih =>
    intro e
    rw [trainLoopTrace_succ, List.count_append, epochTrace_count_epochInc, ih]
    omega

lemma trainLoopTrace_count_valSummary (nb ntb : ℕ) :
    ∀ (n e : ℕ), (trainLoopTrace n e nb ntb).count TrainEvent.valSummary =
      ((List.range' e n).filter (fun i => decide (i % 5 = 0))).length := by
  intro n
  induction n with
  | zero => intro e; rfl
  | succ n ih =>
    intro e
    rw [trainLoopTrace_succ, List.count_append, epochTrace_count_valSummary, ih,
      show List.range' e (n + 1) = e :: List.range' (e + 1) n from List.range'_succ e n 1]
    by_cases h : e % 5 = 0
    · simp [h]
      omega
    · simp [h]

/-! ## Claim theorems -/

/-- Claim C2, counterexample: for `dim_bias = 3` the boundary list is
`[85, 170, 255]` — three thresholds, not `3 - 1 = 2` — so the claimed count
fails already at `dim_bias = 3`. -/
theorem boundaries_count_fails_at_three : (boundariesOf 3).length ≠ 3 - 1 := by
  decide

/-- Claim C2 (amended): for every `dim_bias` dividing 256 the boundary list is
exactly the `dim_bias - 1` evenly spaced thresholds `s, 2s, ..., (dim_bias-1)·s`
with spacing `s = 256 / dim_bias`, hence strictly increasing and partitioning
`[0, 256)` into exactly `dim_bias` buckets (`length + 1` buckets). -/
theorem boundaries_divisor_spec (d : ℕ) (hd : d ∣ 256) :
    boundariesOf d = (List.range (d - 1)).map (fun i => (i + 1) * (256 / d)) ∧
    (boundariesOf d).length = d - 1 ∧
    List.Chain' (· < ·) (boundariesOf d) := by
  exact ⟨boundaries_dvd_char d hd, boundaries_dvd_length d hd, boundaries_dvd_chain d hd⟩

/-- Witness for C2 at `dim_bias = 16` (the program's default). -/
theorem boundaries_divisor_spec_witness :
    (16 : ℕ) ∣ 256 ∧
    (boundariesOf 16 = (List.range 15).map (fun i => (i + 1) * 16) ∧
      (boundariesOf 16).length = 15 ∧
      List.Chain' (· < ·) (boundariesOf 16)) := by
  refine ⟨by decide, ?_⟩
  have h := boundaries_divisor_spec 16 (by decide)
  simpa using h

/-- Claim C3, counterexample: for `dim_bias = 3` (boundaries `[85, 170, 255]`)
the channel value 255 — attained e.g. by an all-white image, which the bilinear
resize leaves at 255 — is mapped to bucket 3, outside `[0, 3)`. -/
theorem quantize_out_of_range_at_three : ¬ (quantize 3 (255 : ℚ) < 3) := by
  decide

/-- Claim C3 (amended): for every `dim_bias` dividing 256 the quantizer maps
every channel value into `[0, dim_bias)`; a value equal to the `i`-th boundary
goes to the upper bucket `i + 1` (the bucket whose lower edge equals the
value); and for `dim_bias = 4` (boundaries `{64, 128, 192}`) the value 64 maps
to bucket 1, 255 to bucket 3, and 0 to bucket 0. -/
theorem quantize_amended_spec (d : ℕ) (x : ℚ) (hd : d ∣ 256) :
    quantize d x < d ∧
    (∀ i (hi : i < (boundariesOf d).length),
      quantize d (((boundariesOf d).get ⟨i, hi⟩ : ℕ) : ℚ) = i + 1) ∧
    quantize 4 64 = 1 ∧ quantize 4 255 = 3 ∧ quantize 4 0 = 0 := by
  exact ⟨quantize_lt d x hd, fun i hi => quantize_boundary d hd i hi,
    by decide, by decide, by decide⟩

/-- Witness for C3 at `dim_bias = 4`, channel value 100. -/
theorem quantize_amended_spec_witness :
    (4 : ℕ) ∣ 256 ∧ quantize 4 (100 : ℚ) < 4 := by
  exact ⟨by decide, (quantize_amended_spec 4 100 (by decide)).1⟩

/-- Claim C10: boundary construction (hence `Trainer` construction, which runs
`_preprocess_dataset` before any training step) succeeds exactly for
`dim_bias` in `[1, 256]`: for `dim_bias > 256` the step `256 // dim_bias` is 0
and Python's `range` raises. -/
theorem mkBoundaries_ok_iff (d : ℕ) (hd : 1 ≤ d) :
    okB (mkBoundaries d) = true ↔ d ≤ 256 := by
  constructor
  · intro h
    by_contra hgt
    have hz : 256 / d = 0 := Nat.div_eq_of_lt (by omega)
    simp [mkBoundaries, hz, okB] at h
  · intro hle
    have hz : 256 / d ≠ 0 := by
      have := Nat.div_pos hle hd
      omega
    simp [mkBoundaries, hz, okB]

/-- Witness for C10 at `dim_bias = 16`. -/
theorem mkBoundaries_ok_iff_witness :
    okB (mkBoundaries 16) = true ↔ (16 : ℕ) ≤ 256 := by
  exact mkBoundaries_ok_iff 16 (by decide)

/-- Claim C1: the gradient-reversal layer is the identity on the forward pass
— `L(reverse(f(x)))` forwards bit-identically to `L(f(x))` — and for any
scalar downstream loss `L` composed as `L(reverse(f(x)))` the gradient with
respect to `x` is the negation of the gradient obtained with the reversal
layer replaced by the identity.  The hypothesis `hlin` states that `f`'s
pullback at `x` is odd in the cotangent, which every true vector-Jacobian
product is (it is linear in the cotangent). -/
theorem gradReverse_backward_negates {A V K : Type} [Neg A] [Neg V] [One K]
    (f : DiffMap A V) (L : DiffMap V K) (x : A)
    (hlin : ∀ dz : V, f.pullback x (-dz) = -(f.pullback x dz)) :
    (∀ y : V, (gradientReversalLayer : DiffMap V V).forward y = y) ∧
    (L.comp (DiffMap.comp gradientReversalLayer f)).forward x =
      (L.comp f).forward x ∧
    gradAt (L.comp (DiffMap.comp gradientReversalLayer f)) x =
      -(gradAt (L.comp f) x) := by
  refine ⟨fun y => rfl, rfl, ?_⟩
  simp only [gradAt, DiffMap.comp, gradientReversalLayer]
  exact hlin _

/-- Witness for C1: `f` doubling, `L` squaring, at `x = 3` the reversed
gradient is `-24`, the negation of the unreversed gradient `24`. -/
theorem gradReverse_backward_negates_witness :
    (squareLoss.comp (DiffMap.comp gradientReversalLayer doubleMap)).forward 3 =
      (squareLoss.comp doubleMap).forward 3 ∧
    gradAt (squareLoss.comp (DiffMap.comp gradientReversalLayer doubleMap)) 3 =
      -(gradAt (squareLoss.comp doubleMap) 3) := by
  have h := gradReverse_backward_negates doubleMap squareLoss 3
    (fun dz => by unfold doubleMap; ring)
  exact ⟨h.2.1, h.2.2⟩

/-- Claim C4: since the pass-1 self-distillation loss compares each pseudo
prediction with itself, for well-formed probability vectors the computed term
`crossentropy(p, p)` equals the entropy of `p` and is non-negative, and the
per-step loss `loss_pred_ps_color` is the mean of this term over the three
channels. -/
theorem selfDistill_entropy_spec (pr pg pb : List ℝ)
    (hr : IsProbVec pr) (hg : IsProbVec pg) (hb : IsProbVec pb) :
    (crossentropy pr pr = entropy pr ∧ 0 ≤ entropy pr) ∧
    (crossentropy pg pg = entropy pg ∧ 0 ≤ entropy pg) ∧
    (crossentropy pb pb = entropy pb ∧ 0 ≤ entropy pb) ∧
    selfDistillLoss pr pg pb = (entropy pr + entropy pg + entropy pb) / 3 := by
  refine ⟨⟨crossentropy_self pr, entropy_nonneg_of_probVec pr hr⟩,
    ⟨crossentropy_self pg, entropy_nonneg_of_probVec pg hg⟩,
    ⟨crossentropy_self pb, entropy_nonneg_of_probVec pb hb⟩, ?_⟩
  unfold selfDistillLoss
  rw [crossentropy_self, crossentropy_self, crossentropy_self]

/-- Claim C5: from a fresh start (`global_step = 0`), after `N` training steps
the global step counter equals `N` exactly — each step increments the counter
once, whether it is the two-pass adversarial step `_train_step` or the
one-pass baseline step `_train_step_baseline`. -/
theorem globalStep_counts_steps {P Q M B : Type} (ops : StepOps P Q M B)
    (bs : List B) (s0 : TrainerState P Q M) (h0 : s0.globalStep = 0) :
    (runSteps (trainStep ops) bs s0).globalStep = bs.length ∧
    (runSteps (trainStepBaseline ops) bs s0).globalStep = bs.length := by
  constructor
  · rw [runSteps_count (trainStep ops) (fun s => s.globalStep)
      (fun b s => trainStep_globalStep ops b s) bs s0, h0]
    omega
  · rw [runSteps_count (trainStepBaseline ops) (fun s => s.globalStep)
      (fun b s => trainStepBaseline_globalStep ops b s) bs s0, h0]
    omega

/-- Witness for C5: three trivial batches from the fresh trivial state leave
the counter at 3, under both step variants. -/
theorem globalStep_counts_steps_witness :
    trivFresh.globalStep = 0 ∧
    (runSteps (trainStep trivOps) [(), (), ()] trivFresh).globalStep = 3 ∧
    (runSteps (trainStepBaseline trivOps) [(), (), ()] trivFresh).globalStep = 3 := by
  have h := globalStep_counts_steps trivOps [(), (), ()] trivFresh rfl
  exact ⟨rfl, h.1, h.2⟩

/-- Claim C6: pass 1 of a training step writes only the net's parameters (and
the running metrics): the parameters of the three bias predictors are
unchanged, even though the pass-1 loss reads the predictors' outputs (the
`pass1Net` update consumes them as inputs). -/
theorem pass1_preserves_predictors {P Q M B : Type} (ops : StepOps P Q M B)
    (b : B) (s : TrainerState P Q M) :
    (trainStepPass1 ops b s).predR = s.predR ∧
    (trainStepPass1 ops b s).predG = s.predG ∧
    (trainStepPass1 ops b s).predB = s.predB := by
  exact ⟨rfl, rfl, rfl⟩

/-- Claim C7, counterexample: in a single-epoch run over two batches the loop
emits two training summaries (one per batch, from inside the batch loop), not
the single per-epoch emission the claim states. -/
theorem trainSummary_not_once_per_epoch :
    (trainTrace 1 2 1).count TrainEvent.trainSummary ≠ 1 := by
  decide

/-- Claim C7 (amended): training summaries are emitted once after each
training step — `maxEpoch * nb` emissions in total, matching the number of
steps — while the epoch counter is incremented exactly once per epoch. -/
theorem trainSummary_per_step_epochInc_per_epoch (maxEpoch nb ntb : ℕ) :
    (trainTrace maxEpoch nb ntb).count TrainEvent.trainSummary = maxEpoch * nb ∧
    (trainTrace maxEpoch nb ntb).count TrainEvent.stepRun = maxEpoch * nb ∧
    (trainTrace maxEpoch nb ntb).count TrainEvent.epochInc = maxEpoch := by
  exact ⟨trainLoopTrace_count_trainSummary nb ntb maxEpoch 0,
    trainLoopTrace_count_stepRun nb ntb maxEpoch 0,
    trainLoopTrace_count_epochInc nb ntb maxEpoch 0⟩

/-- Claim C8: from a fresh start, an epoch's trace contains a validation pass
(one summary emission, preceded by a full pass of test steps over the
held-out set) exactly when the epoch index is divisible by 5 — including
epoch 0 — and the whole run's validation emissions are exactly one per epoch
index `e < maxEpoch` with `e % 5 = 0`. -/
theorem validation_cadence_spec (maxEpoch nb ntb e : ℕ) :
    ((epochTrace e nb ntb).count TrainEvent.valSummary =
      if e % 5 = 0 then 1 else 0) ∧
    ((epochTrace e nb ntb).count TrainEvent.testRun =
      if e % 5 = 0 then ntb else 0) ∧
    (trainTrace maxEpoch nb ntb).count TrainEvent.valSummary =
      ((List.range maxEpoch).filter (fun i => decide (i % 5 = 0))).length := by
  refine ⟨epochTrace_count_valSummary e nb ntb, epochTrace_count_testRun e nb ntb, ?_⟩
  rw [show trainTrace maxEpoch nb ntb = trainLoopTrace maxEpoch 0 nb ntb from rfl,
    trainLoopTrace_count_valSummary nb ntb maxEpoch 0, List.range_eq_range']

/-- Claim C9: checkpoint-restore failure is never fatal: for every failure
mode (no checkpoint, incompatible shapes, corrupt file) the exception raised
inside the `try` block is caught by the bare `except:`, the warning is
printed, and the parameters keep their current freshly initialized values;
a successful restore installs the restored parameters with no warning. -/
theorem restore_failure_never_fatal {P : Type} (cur : P) (k : RestoreFailure)
    (p : P) :
    restoreCheckpoint cur (RestoreOutcome.failed k) =
      (cur, ["Could not restore from checkpoint."]) ∧
    restoreCheckpoint cur (RestoreOutcome.found p) = (p, []) := by
  exact ⟨rfl, rfl⟩

/-- Witness for C4 at the one-hot vector `[1]` for all three channels. -/
theorem selfDistill_entropy_spec_witness :
    IsProbVec [(1 : ℝ)] ∧
    ((crossentropy [(1 : ℝ)] [1] = entropy [1] ∧ 0 ≤ entropy [(1 : ℝ)]) ∧
      selfDistillLoss [(1 : ℝ)] [1] [1] = (entropy [(1 : ℝ)] + entropy [1] + entropy [1]) / 3) ∧
    entropy [(1 : ℝ)] = 0 := by
  have hp : IsProbVec [(1 : ℝ)] := ⟨by intro a ha; simp at ha; simp [ha], by simp⟩
  have h := selfDistill_entropy_spec [(1 : ℝ)] [1] [1] hp hp hp
  exact ⟨hp, ⟨h.1, h.2.2.2⟩, by simp [entropy]⟩

end LearningNotToLearn
